import Mathlib

/-!
Verification of the batch PNG cropper (`src/batch-crop-usdt-pairs-v2.py`).

The program is embedded shallowly: file names and paths are lists of
characters (Python strings are sequences of code points), the image codec
is a pure function on an image record, the filesystem is a record of the
facts `main` consults, and each print statement becomes a `LogLine`
constructor carrying exactly the data interpolated into the line.
-/

namespace BatchCrop

/-- File names and paths: sequences of Unicode code points, as in Python. -/
abbrev Str := List Char

/-- A decoded raster image as exposed by the image codec: dimensions plus a
pixel lookup. -/
structure PILImage where
  width : Nat
  height : Nat
  pix : Nat → Nat → Nat

/-- Shape of the crop-margin dictionary `CROP` of the source. -/
structure CropRect where
  left : Nat
  top : Nat
  right : Nat
  bottom : Nat

/-- Constant `CROP = {'left': 40, 'top': 130, 'right': 440, 'bottom': 100}`. -/
def CROP : CropRect := { left := 40, top := 130, right := 440, bottom := 100 }

/-- Constant `EXPECTED_SIZE = (1920, 1080)`. -/
def EXPECTED_SIZE : Nat × Nat := (1920, 1080)

/-- Pillow's `Image.crop(box)`: rejects a box whose right edge is left of its
left edge, or whose lower edge is above its upper edge; otherwise yields an
image of exactly the box size whose pixel (x, y) is the source pixel at
(l + x, t + y), zero outside the source bounds. -/
def pilCrop (img : PILImage) (l t r b : Int) : Except String PILImage :=
  if r < l then
    Except.error "Coordinate 'right' is less than 'left'"
  else if b < t then
    Except.error "Coordinate 'lower' is less than 'upper'"
  else
    Except.ok
      { width := (r - l).toNat
        height := (b - t).toNat
        pix := fun x y =>
          let sx : Int := l + (x : Int)
          let sy : Int := t + (y : Int)
          if 0 ≤ sx ∧ sx < (img.width : Int) ∧ 0 ≤ sy ∧ sy < (img.height : Int) then
            img.pix sx.toNat sy.toNat
          else 0 }

/-- Saving an image as a PNG file (`out.save(out_path)`): the codec rejects an
empty (zero-width or zero-height) image; other failure modes (disk errors)
are outside the model. -/
def pngSave (img : PILImage) : Except String Unit :=
  if img.width = 0 || img.height = 0 then
    Except.error "cannot write empty image as PNG"
  else Except.ok ()

/-- Python `str.lower`, per code point (every constant involved is ASCII). -/
def lower (s : Str) : Str := s.map Char.toLower

/-- Python `str.endswith`. -/
def endsWith (s suf : Str) : Bool := suf.isSuffixOf s

/-- Python `os.path.basename` on POSIX paths: the part after the last slash. -/
def basename (p : Str) : Str := (p.reverse.takeWhile (fun c => c ≠ '/')).reverse

/-- Directory part of a path, up to and including the last slash. -/
def dirPart (p : Str) : Str := (p.reverse.dropWhile (fun c => c ≠ '/')).reverse

/-- Python `os.path.splitext` restricted to a basename (no slashes): split at
the last dot, provided some character strictly before the last dot is not a
dot (an all-dots prefix marks a hidden file, not an extension). -/
def splitextName (name : Str) : Str × Str :=
  let r := name.reverse
  let afterRev := r.takeWhile (fun c => c ≠ '.')
  match r.dropWhile (fun c => c ≠ '.') with
  | [] => (name, [])
  | _ :: beforeRev =>
    if beforeRev.any (fun c => c ≠ '.') then
      (beforeRev.reverse, '.' :: afterRev.reverse)
    else (name, [])

/-- Python `os.path.splitext`: the extension always lies after the last slash,
so the split happens inside the basename. -/
def splitext (p : Str) : Str × Str :=
  let e := splitextName (basename p)
  (dirPart p ++ e.1, e.2)

/-- Python `os.path.join` on POSIX for two components. -/
def joinPath (a b : Str) : Str :=
  if b.head? = some '/' then b
  else if a = [] then b
  else if a.getLast? = some '/' then a ++ b
  else a ++ '/' :: b

/-- One line printed to standard output, by constructor, carrying exactly the
data the source interpolates into the corresponding f-string. -/
inductive LogLine where
  | warn (file : Str) (got : Nat × Nat)
  | cropped (file outFile : Str)
  | error (file : Str) (reason : String)
  | errorTarget (target : Str)
  | info
  | done (processed total : Nat) (target : Str)
  deriving DecidableEq

/-- Observable outcome of `crop_file`: printed lines, the returned string
(empty on failure), and the output file written, if any. -/
structure CropOutcome where
  log : List LogLine
  result : Str
  written : Option (Str × PILImage)

/-- Embedding of `crop_file`. The second argument stands for
`Image.open(src_path)`: either the decoded image or the exception message the
call raises. -/
def crop_file (src_path : Str) (decoded : Except String PILImage) : CropOutcome :=
  let base := (splitext src_path).1
  let out_path := base ++ ("_cropped.png".toList)
  match decoded with
  | Except.error e =>
    { log := [LogLine.error (basename src_path) e], result := [], written := none }
  | Except.ok img =>
    let warnLog : List LogLine :=
      if (img.width, img.height) ≠ EXPECTED_SIZE then
        [LogLine.warn (basename src_path) (img.width, img.height)]
      else []
    let left : Int := CROP.left
    let top : Int := CROP.top
    let width : Int := (img.width : Int) - CROP.left - CROP.right
    let height : Int := (img.height : Int) - CROP.top - CROP.bottom
    match pilCrop img left top (left + width) (top + height) with
    | Except.error e =>
      { log := warnLog ++ [LogLine.error (basename src_path) e]
        result := [], written := none }
    | Except.ok out =>
      match pngSave out with
      | Except.error e =>
        { log := warnLog ++ [LogLine.error (basename src_path) e]
          result := [], written := none }
      | Except.ok _ =>
        { log := warnLog ++ [LogLine.cropped (basename src_path) (basename out_path)]
          result := out_path
          written := some (out_path, out) }

/-- Candidate filter of `main`: the lowercased name ends with `.png` but not
with `_cropped.png`. -/
def isCandidate (f : Str) : Bool :=
  endsWith (lower f) (".png".toList) && ! endsWith (lower f) ("_cropped.png".toList)

/-- Lexicographic order on strings by code point: the order Python's `sorted`
arranges the candidate names by. -/
def strLe : Str → Str → Bool
  | [], _ => true
  | _ :: _, [] => false
  | a :: as, b :: bs =>
    if a < b then true
    else if b < a then false
    else strLe as bs

/-- The candidate list in the order the loop visits it: the filtered
directory listing, sorted. -/
def discover (entries : List Str) : List Str :=
  (entries.filter isCandidate).mergeSort strLe

/-- The state of the world `main` consults: whether the target is a
directory, its entries (plain names), and what decoding each path yields. -/
structure FS where
  isDir : Bool
  entries : List Str
  decode : Str → Except String PILImage

/-- Accumulated effect of the per-file loop. -/
structure BatchAcc where
  processed : Nat
  log : List LogLine
  writes : List (Str × PILImage)

/-- The `for f in sorted(files)` loop of `main`, visiting names in order and
tallying files whose crop returned a non-empty path. -/
def batchLoop (target : Str) (decode : Str → Except String PILImage) :
    List Str → BatchAcc
  | [] => { processed := 0, log := [], writes := [] }
  | f :: rest =>
    let src := joinPath target f
    let r := crop_file src (decode src)
    let acc := batchLoop target decode rest
    { processed := (if r.result = [] then 0 else 1) + acc.processed
      log := r.log ++ acc.log
      writes := r.written.toList ++ acc.writes }

/-- Observable outcome of `main`. -/
structure MainResult where
  exitCode : Nat
  log : List LogLine
  writes : List (Str × PILImage)
  processed : Nat
  total : Nat

/-- Embedding of `main`, given the target argument and the filesystem. -/
def runMain (target : Str) (fs : FS) : MainResult :=
  if fs.isDir = false then
    { exitCode := 1, log := [LogLine.errorTarget target]
      writes := [], processed := 0, total := 0 }
  else
    let files := fs.entries.filter isCandidate
    if files = [] then
      { exitCode := 0, log := [LogLine.info], writes := [], processed := 0, total := 0 }
    else
      let acc := batchLoop target fs.decode (files.mergeSort strLe)
      { exitCode := 0
        log := acc.log ++ [LogLine.done acc.processed files.length target]
        writes := acc.writes
        processed := acc.processed
        total := files.length }

/-- Effect of `img.save(path)` on a directory snapshot: bind the path to the
new image unconditionally, replacing any previous file at that path. -/
def saveTo (store : Str → Option PILImage) (path : Str) (img : PILImage) :
    Str → Option PILImage :=
  fun q => if q = path then some img else store q

lemma takeWhile_append_of_all {p : Char → Bool} {l1 l2 : Str}
    (h : ∀ x ∈ l1, p x = true) :
    (l1 ++ l2).takeWhile p = l1 ++ l2.takeWhile p := by
  induction l1 with
  | nil => simp
  | cons a l ih =>
    simp only [List.cons_append, List.takeWhile_cons, h a (List.mem_cons_self a l), if_true]
    rw [ih (fun x hx => h x (List.mem_cons_of_mem a hx))]

lemma dropWhile_append_of_all {p : Char → Bool} {l1 l2 : Str}
    (h : ∀ x ∈ l1, p x = true) :
    (l1 ++ l2).dropWhile p = l2.dropWhile p := by
  induction l1 with
  | nil => simp
  | cons a l ih =>
    simp only [List.cons_append, List.dropWhile_cons, h a (List.mem_cons_self a l), if_true]
    exact ih (fun x hx => h x (List.mem_cons_of_mem a hx))

lemma strLe_total (a b : Str) : (strLe a b || strLe b a) = true := by
  induction a generalizing b with
  | nil => cases b <;> simp [strLe]
  | cons x xs ih =>
    cases b with
    | nil => simp [strLe]
    | cons y ys =>
      by_cases h1 : x < y
      · simp [strLe, h1]
      · by_cases h2 : y < x
        · simp [strLe, h1, h2]
        · have hxy : x = y := le_antisymm (not_lt.mp h2) (not_lt.mp h1)
          subst hxy
          simpa [strLe, h1, h2] using ih ys

lemma strLe_trans (a b c : Str) (hab : strLe a b = true) (hbc : strLe b c = true) :
    strLe a c = true := by
  induction a generalizing b c with
  | nil => cases c <;> simp [strLe]
  | cons x xs ih =>
    cases b with
    | nil => simp [strLe] at hab
    | cons y ys =>
      cases c with
      | nil => simp [strLe] at hbc
      | cons z zs =>
        simp only [strLe] at hab hbc ⊢
        by_cases hxy : x < y
        · have hyz : y ≤ z := by
            by_contra hzy
            push_neg at hzy
            simp [not_lt.mpr (le_of_lt hzy), hzy] at hbc
          have hxz : x < z := lt_of_lt_of_le hxy hyz
          simp [hxz]
        · by_cases hyx : y < x
          · simp [hxy, hyx] at hab
          · have hx : x = y := le_antisymm (not_lt.mp hyx) (not_lt.mp hxy)
            subst hx
            simp only [lt_irrefl, if_false] at hab
            by_cases hxz : x < z
            · simp [hxz]
            · by_cases hzx : z < x
              · simp [not_lt.mpr (le_of_lt hzx), hzx] at hbc
              · have hx2 : x = z := le_antisymm (not_lt.mp hzx) (not_lt.mp hxz)
                subst hx2
                simp only [lt_irrefl, if_false] at hbc ⊢
                exact ih ys zs hab hbc

lemma endsWith_append_self (l suf : Str) : endsWith (l ++ suf) suf = true := by
  unfold endsWith
  exact List.isSuffixOf_iff_suffix.mpr (List.suffix_append l suf)

lemma endsWith_of_suffix {s suf : Str} (h : suf <:+ s) : endsWith s suf = true :=
  List.isSuffixOf_iff_suffix.mpr h

lemma suffix_of_endsWith {s suf : Str} (h : endsWith s suf = true) : suf <:+ s :=
  List.isSuffixOf_iff_suffix.mp h

lemma lower_append (a b : Str) : lower (a ++ b) = lower a ++ lower b :=
  List.map_append Char.toLower a b

lemma lower_endsWith {s suf : Str} (h : endsWith s suf = true) :
    endsWith (lower s) (lower suf) = true :=
  endsWith_of_suffix (List.IsSuffix.map Char.toLower (suffix_of_endsWith h))

lemma basename_append_of_noSlash (p suf : Str) (h : ∀ c ∈ suf, c ≠ '/') :
    basename (p ++ suf) = basename p ++ suf := by
  unfold basename
  rw [List.reverse_append,
    takeWhile_append_of_all (fun x hx => by simp [h x (List.mem_reverse.mp hx)]),
    List.reverse_append, List.reverse_reverse]

lemma reverse_cons_of_getLast (pre : Str) (hpre : pre.getLast? = some '/') :
    ∃ rest, pre.reverse = '/' :: rest := by
  have h := List.head?_reverse pre
  rw [hpre] at h
  cases hrev : pre.reverse with
  | nil => rw [hrev] at h; simp at h
  | cons c rest =>
    rw [hrev] at h
    simp only [List.head?_cons] at h
    injection h with h2
    exact ⟨rest, by rw [h2]⟩

lemma basename_of_pre (pre name : Str) (hpre : pre.getLast? = some '/')
    (hname : ∀ c ∈ name, c ≠ '/') : basename (pre ++ name) = name := by
  obtain ⟨rest, hrest⟩ := reverse_cons_of_getLast pre hpre
  unfold basename
  rw [List.reverse_append,
    takeWhile_append_of_all (fun x hx => by simp [hname x (List.mem_reverse.mp hx)]),
    hrest, List.takeWhile_cons]
  simp

lemma dirPart_of_pre (pre name : Str) (hpre : pre.getLast? = some '/')
    (hname : ∀ c ∈ name, c ≠ '/') : dirPart (pre ++ name) = pre := by
  obtain ⟨rest, hrest⟩ := reverse_cons_of_getLast pre hpre
  unfold dirPart
  rw [List.reverse_append,
    dropWhile_append_of_all (fun x hx => by simp [hname x (List.mem_reverse.mp hx)]),
    hrest, List.dropWhile_cons]
  simp [← hrest]

lemma splitextName_stem (stem : Str) (hne : stem ≠ []) (hdot : '.' ∉ stem) :
    splitextName (stem ++ (".png".toList)) = (stem, ".png".toList) := by
  have hrev : (stem ++ (".png".toList)).reverse
      = ['g', 'n', 'p'] ++ '.' :: stem.reverse := by
    rw [List.reverse_append]; rfl
  have htake : ((stem ++ (".png".toList)).reverse).takeWhile (fun c => c ≠ '.')
      = ['g', 'n', 'p'] := by
    rw [hrev, takeWhile_append_of_all (by decide), List.takeWhile_cons]
    simp
  have hdrop : ((stem ++ (".png".toList)).reverse).dropWhile (fun c => c ≠ '.')
      = '.' :: stem.reverse := by
    rw [hrev, dropWhile_append_of_all (by decide), List.dropWhile_cons]
    simp
  have hany : stem.reverse.any (fun c => c ≠ '.') = true := by
    cases stem with
    | nil => exact absurd rfl hne
    | cons a l =>
      simp only [List.any_eq_true]
      exact ⟨a, List.mem_reverse.mpr (List.mem_cons_self a l), by
        simp only [decide_eq_true_eq]
        exact fun h => hdot (h ▸ List.mem_cons_self a l)⟩
  unfold splitextName
  dsimp only
  rw [htake, hdrop]
  simp only [hany, if_true, List.reverse_reverse]
  rfl

lemma splitext_pre_stem (pre stem : Str) (hpre : pre.getLast? = some '/')
    (hne : stem ≠ []) (hdot : '.' ∉ stem) (hslash : '/' ∉ stem) :
    splitext (pre ++ (stem ++ (".png".toList))) = (pre ++ stem, ".png".toList) := by
  have hpng : ∀ c ∈ ((".png".toList) : Str), c ≠ '/' := by decide
  have hname : ∀ c ∈ stem ++ (".png".toList), c ≠ '/' := by
    intro c hc
    rcases List.mem_append.mp hc with h | h
    · exact fun he => hslash (he ▸ h)
    · exact hpng c h
  unfold splitext
  rw [basename_of_pre pre _ hpre hname, dirPart_of_pre pre _ hpre hname,
    splitextName_stem stem hne hdot]

lemma crop_file_cases (p : Str) (d : Except String PILImage) :
    ((crop_file p d).result = [] ∧ (crop_file p d).written = none) ∨
    ((crop_file p d).result = (splitext p).1 ++ ("_cropped.png".toList) ∧
     ∃ img, (crop_file p d).written = some ((splitext p).1 ++ ("_cropped.png".toList), img)) := by
  unfold crop_file
  cases d with
  | error e => left; simp
  | ok img =>
    dsimp only
    split
    · left; simp
    · split
      · left; simp
      · right; simp

lemma crop_file_success (p : Str) (img : PILImage)
    (hW : 480 < img.width) (hH : 230 < img.height) :
    ∃ out : PILImage,
      (crop_file p (Except.ok img)).written
        = some ((splitext p).1 ++ ("_cropped.png".toList), out) ∧
      (crop_file p (Except.ok img)).result
        = (splitext p).1 ++ ("_cropped.png".toList) ∧
      (crop_file p (Except.ok img)).log
        = (if (img.width, img.height) ≠ EXPECTED_SIZE then
            [LogLine.warn (basename p) (img.width, img.height)]
          else [])
          ++ [LogLine.cropped (basename p)
                (basename ((splitext p).1 ++ ("_cropped.png".toList)))] ∧
      out.width = img.width - 480 ∧ out.height = img.height - 230 ∧
      (∀ x y, x < img.width - 480 → y < img.height - 230 →
        out.pix x y = img.pix (40 + x) (130 + y)) := by
  unfold crop_file
  dsimp only
  split
  · rename_i e heq
    rw [pilCrop] at heq
    split_ifs at heq with h1 h2
    · exfalso; simp only [CROP] at h1; omega
    · exfalso; simp only [CROP] at h2; omega
  · rename_i out heq
    rw [pilCrop] at heq
    split_ifs at heq with h1 h2
    injection heq with h3
    subst h3
    split
    · rename_i e heq3
      rw [pngSave] at heq3
      split_ifs at heq3 with h4
      exfalso
      simp only [CROP, Bool.or_eq_true, decide_eq_true_eq] at h4
      omega
    · refine ⟨_, rfl, rfl, rfl, ?_, ?_, ?_⟩
      · simp only [CROP]; omega
      · simp only [CROP]; omega
      · intro x y hx hy
        dsimp only
        rw [if_pos]
        · congr 1
        · refine ⟨by simp only [CROP]; omega, by simp only [CROP]; omega,
            by simp only [CROP]; omega, by simp only [CROP]; omega⟩

lemma crop_file_degenerate (p : Str) (img : PILImage)
    (hdeg : img.width ≤ 480 ∨ img.height ≤ 230) :
    (crop_file p (Except.ok img)).result = [] ∧
    (crop_file p (Except.ok img)).written = none := by
  unfold crop_file
  dsimp only
  split
  · simp
  · rename_i out heq
    rw [pilCrop] at heq
    split_ifs at heq with h1 h2
    injection heq with h3
    subst h3
    split
    · simp
    · rename_i u heq3
      rw [pngSave] at heq3
      split_ifs at heq3 with h4
      exfalso
      simp only [Bool.or_eq_true, decide_eq_true_eq] at h4
      push_neg at h4
      simp only [CROP] at h1 h2 h4
      omega

lemma batchLoop_log_mem (target : Str) (decode : Str → Except String PILImage)
    (l : List Str) (f : Str) (hf : f ∈ l) (line : LogLine)
    (hline : line ∈ (crop_file (joinPath target f) (decode (joinPath target f))).log) :
    line ∈ (batchLoop target decode l).log := by
  induction l with
  | nil => cases hf
  | cons g rest ih =>
    unfold batchLoop
    dsimp only
    rcases List.mem_cons.mp hf with h | h
    · subst h
      exact List.mem_append_left _ hline
    · exact List.mem_append_right _ (ih h)

lemma batchLoop_processed_eq (target : Str) (decode : Str → Except String PILImage)
    (l : List Str) :
    (batchLoop target decode l).processed
      = l.countP (fun f =>
          decide ((crop_file (joinPath target f) (decode (joinPath target f))).result ≠ [])) := by
  induction l with
  | nil => rfl
  | cons g rest ih =>
    unfold batchLoop
    dsimp only
    rw [List.countP_cons, ih]
    by_cases h : (crop_file (joinPath target g) (decode (joinPath target g))).result = []
    · simp [h]
    · simp [h]
      omega

lemma batchLoop_processed_le (target : Str) (decode : Str → Except String PILImage)
    (l : List Str) :
    (batchLoop target decode l).processed ≤ l.length := by
  rw [batchLoop_processed_eq]
  exact List.countP_le_length _

lemma crop_file_empty_error (p : Str) (d : Except String PILImage)
    (h : (crop_file p d).result = []) :
    ∃ e, LogLine.error (basename p) e ∈ (crop_file p d).log := by
  revert h
  unfold crop_file
  cases d with
  | error e => intro _; exact ⟨e, by simp⟩
  | ok img =>
    dsimp only
    split
    · rename_i e heq
      intro _
      exact ⟨e, by simp⟩
    · split
      · rename_i e heq
        intro _
        exact ⟨e, by simp⟩
      · intro h
        exact absurd (List.append_eq_nil.mp h).2 (by decide)

lemma runMain_isDir (target : Str) (fs : FS) (hdir : fs.isDir = true) :
    runMain target fs =
      (let files := fs.entries.filter isCandidate
       if files = [] then
         { exitCode := 0, log := [LogLine.info], writes := [], processed := 0, total := 0 }
       else
         let acc := batchLoop target fs.decode (files.mergeSort strLe)
         { exitCode := 0
           log := acc.log ++ [LogLine.done acc.processed files.length target]
           writes := acc.writes
           processed := acc.processed
           total := files.length }) := by
  unfold runMain
  rw [if_neg (by simp [hdir])]

lemma runMain_notDir (target : Str) (fs : FS) (hdir : fs.isDir = false) :
    runMain target fs =
      { exitCode := 1, log := [LogLine.errorTarget target]
        writes := [], processed := 0, total := 0 } := by
  unfold runMain
  rw [if_pos hdir]

lemma joinPath_pre (target f : Str) (ht : target ≠ []) (hf : f.head? ≠ some '/') :
    joinPath target f
      = (if target.getLast? = some '/' then target else target ++ ['/']) ++ f := by
  unfold joinPath
  rw [if_neg hf, if_neg ht]
  by_cases hlast : target.getLast? = some '/'
  · rw [if_pos hlast, if_pos hlast]
  · rw [if_neg hlast, if_neg hlast]
    simp

lemma pre_getLast (target : Str) :
    (if target.getLast? = some '/' then target else target ++ ['/']).getLast?
      = some '/' := by
  by_cases hlast : target.getLast? = some '/'
  · rw [if_pos hlast]; exact hlast
  · rw [if_neg hlast]; exact List.getLast?_concat _

lemma isCandidate_of_cropped {f : Str}
    (h : endsWith (lower f) ("_cropped.png".toList) = true) :
    isCandidate f = false := by
  unfold isCandidate
  rw [h]
  simp

lemma crop_file_written_path (p : Str) (d : Except String PILImage) (out : Str)
    (hw : ((crop_file p d).written.map Prod.fst) = some out) :
    out = (splitext p).1 ++ ("_cropped.png".toList) := by
  rcases crop_file_cases p d with ⟨_, h2⟩ | ⟨_, img, h2⟩
  · rw [h2] at hw
    simp at hw
  · rw [h2] at hw
    simp at hw
    exact hw.symm

/-- C1: for every input image of width W and height H with 40+440 < W and
130+100 < H, `crop_file` writes an output of exactly (W-480, H-230) pixels
taken at offset (40, 130) to the derived output path, and the dimension
warning is emitted if and only if (W, H) differs from EXPECTED_SIZE, so a
1920x1080 input yields 1440x850 with no warning. -/
theorem c1_crop_geometry (p : Str) (pix : Nat → Nat → Nat) (W H : Nat)
    (hW : 40 + 440 < W) (hH : 130 + 100 < H) :
    ∃ out : PILImage,
      (crop_file p (Except.ok ⟨W, H, pix⟩)).written
        = some ((splitext p).1 ++ ("_cropped.png".toList), out) ∧
      out.width = W - 480 ∧ out.height = H - 230 ∧
      (∀ x y, x < W - 480 → y < H - 230 → out.pix x y = pix (40 + x) (130 + y)) ∧
      (crop_file p (Except.ok ⟨W, H, pix⟩)).result
        = (splitext p).1 ++ ("_cropped.png".toList) ∧
      (LogLine.warn (basename p) (W, H) ∈ (crop_file p (Except.ok ⟨W, H, pix⟩)).log
        ↔ (W, H) ≠ EXPECTED_SIZE) := by
  obtain ⟨out, hwr, hres, hlog, hw, hh, hpix⟩ :=
    crop_file_success p ⟨W, H, pix⟩ (show 480 < W by omega) (show 230 < H by omega)
  refine ⟨out, hwr, hw, hh, hpix, hres, ?_⟩
  rw [hlog]
  by_cases hsz : (W, H) ≠ EXPECTED_SIZE
  · simp [hsz]
  · push_neg at hsz
    simp [hsz]

/-- Witness for C1 at the expected size 1920 by 1080. -/
theorem c1_crop_geometry_witness :
    ∃ out : PILImage,
      (crop_file ("chart.png".toList)
          (Except.ok ⟨1920, 1080, fun x y => x + y⟩)).written
        = some ((splitext ("chart.png".toList)).1 ++ ("_cropped.png".toList), out) ∧
      out.width = 1920 - 480 ∧ out.height = 1080 - 230 ∧
      (∀ x y, x < 1920 - 480 → y < 1080 - 230 →
        out.pix x y = (fun x y => x + y) (40 + x) (130 + y)) ∧
      (crop_file ("chart.png".toList)
          (Except.ok ⟨1920, 1080, fun x y => x + y⟩)).result
        = (splitext ("chart.png".toList)).1 ++ ("_cropped.png".toList) ∧
      (LogLine.warn (basename ("chart.png".toList)) (1920, 1080)
          ∈ (crop_file ("chart.png".toList)
              (Except.ok ⟨1920, 1080, fun x y => x + y⟩)).log
        ↔ (1920, 1080) ≠ EXPECTED_SIZE) :=
  c1_crop_geometry ("chart.png".toList) (fun x y => x + y) 1920 1080
    (by decide) (by decide)

/-- C2: a name is in the discovered candidate list exactly when it is a
directory entry whose lowercased form ends with .png and not with
_cropped.png; the list is sorted ascending and is a permutation of the
filtered listing. -/
theorem c2_discovery (es : List Str) (f : Str) :
    (f ∈ discover es ↔
      f ∈ es ∧ endsWith (lower f) (".png".toList) = true ∧
        endsWith (lower f) ("_cropped.png".toList) = false) ∧
    List.Pairwise (fun a b => strLe a b = true) (discover es) ∧
    (discover es).Perm (es.filter isCandidate) := by
  refine ⟨?_, ?_, ?_⟩
  · unfold discover
    rw [List.mem_mergeSort, List.mem_filter]
    unfold isCandidate
    constructor
    · rintro ⟨h1, h2⟩
      simp only [Bool.and_eq_true, Bool.not_eq_true'] at h2
      exact ⟨h1, h2.1, h2.2⟩
    · rintro ⟨h1, h2, h3⟩
      refine ⟨h1, ?_⟩
      simp only [Bool.and_eq_true, Bool.not_eq_true']
      exact ⟨h2, h3⟩
  · exact List.sorted_mergeSort strLe_trans strLe_total _
  · exact List.mergeSort_perm _ _

/-- C3: an input no wider than 480 or no taller than 230 makes the crop
degenerate and the file fails: empty result and no written output; the run
over any directory still reports every candidate in the summary and exits
with status 0. -/
theorem c3_degenerate_crop (p : Str) (img : PILImage) (target : Str) (fs : FS)
    (hdeg : img.width ≤ 480 ∨ img.height ≤ 230) (hdir : fs.isDir = true) :
    ((crop_file p (Except.ok img)).result = [] ∧
      (crop_file p (Except.ok img)).written = none) ∧
    (runMain target fs).exitCode = 0 ∧
    (runMain target fs).total = (fs.entries.filter isCandidate).length := by
  refine ⟨crop_file_degenerate p img hdeg, ?_⟩
  rw [runMain_isDir target fs hdir]
  dsimp only
  by_cases hfl : fs.entries.filter isCandidate = []
  · rw [if_pos hfl]
    exact ⟨rfl, by rw [hfl]; rfl⟩
  · rw [if_neg hfl]
    exact ⟨rfl, rfl⟩

/-- Witness for C3: a 480-wide image fails while the lone candidate of a
one-file directory is still counted and the exit status is 0. -/
theorem c3_degenerate_crop_witness :
    ((crop_file ("a.png".toList)
        (Except.ok ⟨480, 1080, fun _ _ => 0⟩)).result = [] ∧
      (crop_file ("a.png".toList)
        (Except.ok ⟨480, 1080, fun _ _ => 0⟩)).written = none) ∧
    (runMain ("d".toList)
      (FS.mk true [("b.png".toList)] (fun _ => Except.error "boom"))).exitCode = 0 ∧
    (runMain ("d".toList)
      (FS.mk true [("b.png".toList)] (fun _ => Except.error "boom"))).total
      = (((FS.mk true [("b.png".toList)]
          (fun _ => Except.error "boom")).entries).filter isCandidate).length :=
  c3_degenerate_crop ("a.png".toList) ⟨480, 1080, fun _ _ => 0⟩ ("d".toList)
    (FS.mk true [("b.png".toList)] (fun _ => Except.error "boom"))
    (Or.inl (by decide)) rfl

/-- C4: failures are caught per file: whenever crop_file returns the empty
result an ERROR line naming the file is in its log, and every candidate's
per-file log lines appear in the run log, so processing of the remaining
candidates continues unaffected. -/
theorem c4_per_file_isolation (p : Str) (d : Except String PILImage)
    (target : Str) (fs : FS) (f : Str) (line : LogLine)
    (hdir : fs.isDir = true) (hf : f ∈ fs.entries.filter isCandidate)
    (hline : line ∈ (crop_file (joinPath target f)
        (fs.decode (joinPath target f))).log) :
    ((crop_file p d).result = [] →
      ∃ e, LogLine.error (basename p) e ∈ (crop_file p d).log) ∧
    line ∈ (runMain target fs).log := by
  refine ⟨crop_file_empty_error p d, ?_⟩
  rw [runMain_isDir target fs hdir]
  dsimp only
  rw [if_neg (List.ne_nil_of_mem hf)]
  exact List.mem_append_left _
    (batchLoop_log_mem target fs.decode _ f (List.mem_mergeSort.mpr hf) line hline)

/-- Witness for C4: a decode failure yields an ERROR line and an empty
result, and the candidate's log line is in the run log. -/
theorem c4_per_file_isolation_witness :
    ((crop_file ("x.png".toList) (Except.error "decode failed")).result = [] →
      ∃ e, LogLine.error (basename ("x.png".toList)) e
        ∈ (crop_file ("x.png".toList) (Except.error "decode failed")).log) ∧
    LogLine.error ("a.png".toList) "err"
      ∈ (runMain ("d".toList)
          (FS.mk true [("a.png".toList)] (fun _ => Except.error "err"))).log :=
  c4_per_file_isolation ("x.png".toList) (Except.error "decode failed")
    ("d".toList) (FS.mk true [("a.png".toList)] (fun _ => Except.error "err"))
    ("a.png".toList) (LogLine.error ("a.png".toList) "err")
    rfl (by decide) (by decide)

/-- C5: the exit status is 1 exactly when the target is not a directory (and
then nothing is written or counted); otherwise it is 0, and when the
candidate set is empty the run logs only the informational line and writes
nothing. -/
theorem c5_exit_codes (target : Str) (fs : FS) :
    ((runMain target fs).exitCode = 1 ↔ fs.isDir = false) ∧
    ((runMain target fs).exitCode = 0 ↔ fs.isDir = true) ∧
    (fs.isDir = false →
      (runMain target fs).writes = [] ∧ (runMain target fs).processed = 0) ∧
    (fs.isDir = true → fs.entries.filter isCandidate = [] →
      (runMain target fs).log = [LogLine.info] ∧ (runMain target fs).writes = []) := by
  cases hdir : fs.isDir with
  | false =>
    rw [runMain_notDir target fs hdir]
    exact ⟨by simp [hdir], by simp [hdir], fun _ => ⟨rfl, rfl⟩,
      fun h => absurd h (by decide)⟩
  | true =>
    rw [runMain_isDir target fs hdir]
    dsimp only
    by_cases hfl : fs.entries.filter isCandidate = []
    · rw [if_pos hfl]
      exact ⟨by simp [hdir], by simp [hdir],
        fun h => absurd h (by decide), fun _ _ => ⟨rfl, rfl⟩⟩
    · rw [if_neg hfl]
      exact ⟨by simp [hdir], by simp [hdir],
        fun h => absurd h (by decide), fun _ h => absurd h hfl⟩

/-- Witness for C5 on an empty directory: exit status 0, the informational
line, and no writes. -/
theorem c5_exit_codes_witness :
    ((runMain ("d".toList)
        (FS.mk true [] (fun _ => Except.error "e"))).exitCode = 1
      ↔ (FS.mk true ([] : List Str) (fun _ => Except.error "e")).isDir = false) ∧
    ((runMain ("d".toList)
        (FS.mk true [] (fun _ => Except.error "e"))).exitCode = 0
      ↔ (FS.mk true ([] : List Str) (fun _ => Except.error "e")).isDir = true) ∧
    ((FS.mk true ([] : List Str) (fun _ => Except.error "e")).isDir = false →
      (runMain ("d".toList) (FS.mk true [] (fun _ => Except.error "e"))).writes = [] ∧
      (runMain ("d".toList) (FS.mk true [] (fun _ => Except.error "e"))).processed = 0) ∧
    ((FS.mk true ([] : List Str) (fun _ => Except.error "e")).isDir = true →
      (FS.mk true ([] : List Str) (fun _ => Except.error "e")).entries.filter isCandidate = [] →
      (runMain ("d".toList) (FS.mk true [] (fun _ => Except.error "e"))).log
        = [LogLine.info] ∧
      (runMain ("d".toList) (FS.mk true [] (fun _ => Except.error "e"))).writes = []) :=
  c5_exit_codes ("d".toList) (FS.mk true [] (fun _ => Except.error "e"))

lemma dropWhile_head_false {p : Char → Bool} {l : List Char} {a : Char}
    {t : List Char} (h : l.dropWhile p = a :: t) : p a = false := by
  induction l with
  | nil => simp at h
  | cons x xs ih =>
    rw [List.dropWhile_cons] at h
    by_cases hx : p x = true
    · rw [if_pos hx] at h
      exact ih h
    · rw [if_neg hx] at h
      injection h with h1 h2
      rw [← h1]
      exact Bool.eq_false_iff.mpr hx

lemma dirPart_cases (p : Str) :
    dirPart p = [] ∨ (dirPart p).getLast? = some '/' := by
  unfold dirPart
  cases hd : p.reverse.dropWhile (fun c => c ≠ '/') with
  | nil => left; rfl
  | cons a t =>
    right
    have ha : a = '/' := by
      have h2 := dropWhile_head_false hd
      simpa using h2
    rw [ha, List.reverse_cons]
    exact List.getLast?_concat _

lemma dirPart_noSlash (X : Str) (h : ∀ c ∈ X, c ≠ '/') : dirPart X = [] := by
  unfold dirPart
  have h2 : X.reverse.dropWhile (fun c => c ≠ '/') = [] := by
    rw [List.dropWhile_eq_nil_iff]
    intro a ha
    simp [h a (List.mem_reverse.mp ha)]
  rw [h2]
  rfl

lemma basename_noSlash (X : Str) (h : ∀ c ∈ X, c ≠ '/') : basename X = X := by
  unfold basename
  have h2 : X.reverse.takeWhile (fun c => c ≠ '/') = X.reverse := by
    have h3 := @takeWhile_append_of_all (fun c => decide (c ≠ '/'))
      X.reverse ([] : Str)
      (fun x hx => by simp [h x (List.mem_reverse.mp hx)])
    simpa using h3
  rw [h2, List.reverse_reverse]

lemma dirPart_append_noSlash (p s : Str) (hs : ∀ c ∈ s, c ≠ '/') :
    dirPart (dirPart p ++ s) = dirPart p := by
  rcases dirPart_cases p with h | h
  · rw [h, List.nil_append, dirPart_noSlash s hs]
  · exact dirPart_of_pre _ _ h hs

lemma basename_append_dirPart (p s : Str) (hs : ∀ c ∈ s, c ≠ '/') :
    basename (dirPart p ++ s) = s := by
  rcases dirPart_cases p with h | h
  · rw [h, List.nil_append]
    exact basename_noSlash s hs
  · exact basename_of_pre _ _ h hs

lemma splitextName_fst_mem (name : Str) :
    ∀ c ∈ (splitextName name).1, c ∈ name := by
  unfold splitextName
  dsimp only
  cases hd : name.reverse.dropWhile (fun c => c ≠ '.') with
  | nil =>
    dsimp only
    intro c hc
    exact hc
  | cons a before =>
    dsimp only
    split
    · intro c hc
      have h1 : c ∈ before := List.mem_reverse.mp hc
      have h2 : c ∈ a :: before := List.mem_cons_of_mem _ h1
      rw [← hd] at h2
      have h3 : c ∈ name.reverse := List.Sublist.mem h2 (List.dropWhile_sublist _)
      exact List.mem_reverse.mp h3
    · intro c hc
      exact hc

lemma basename_mem_noSlash (p : Str) : ∀ c ∈ basename p, c ≠ '/' := by
  intro c hc
  unfold basename at hc
  have h2 := List.mem_takeWhile_imp (List.mem_reverse.mp hc)
  simpa using h2

/-- C6: for every successfully cropped input file, the returned and written
output path is the input path with its extension stripped and _cropped.png
appended to the base name (which is preserved as given), it lies in the same
directory as the input, and saving replaces whatever file previously existed
at that path. -/
theorem c6_output_naming (p : Str) (d : Except String PILImage)
    (store : Str → Option PILImage) (img : PILImage) :
    ((crop_file p d).result ≠ [] →
      (crop_file p d).result = (splitext p).1 ++ ("_cropped.png".toList) ∧
      (∃ cropped, (crop_file p d).written
        = some ((crop_file p d).result, cropped)) ∧
      dirPart ((crop_file p d).result) = dirPart p ∧
      basename ((crop_file p d).result)
        = (splitextName (basename p)).1 ++ ("_cropped.png".toList)) ∧
    saveTo store ((splitext p).1 ++ ("_cropped.png".toList)) img
      ((splitext p).1 ++ ("_cropped.png".toList)) = some img := by
  have hs : ∀ c ∈ (splitextName (basename p)).1 ++ ("_cropped.png".toList),
      c ≠ '/' := by
    intro c hc
    rcases List.mem_append.mp hc with h | h
    · exact basename_mem_noSlash p c (splitextName_fst_mem (basename p) c h)
    · have hno : ∀ c2 ∈ (("_cropped.png".toList) : Str), c2 ≠ '/' := by decide
      exact hno c h
  have hfst : (splitext p).1 = dirPart p ++ (splitextName (basename p)).1 := rfl
  constructor
  · intro hres
    rcases crop_file_cases p d with ⟨h1, _⟩ | ⟨h1, img2, h2⟩
    · exact absurd h1 hres
    · refine ⟨h1, ⟨img2, by rw [h1]; exact h2⟩, ?_, ?_⟩
      · rw [h1, hfst, List.append_assoc]
        exact dirPart_append_noSlash p _ hs
      · rw [h1, hfst, List.append_assoc]
        exact basename_append_dirPart p _ hs
  · unfold saveTo
    rw [if_pos rfl]

/-- Witness for C6 on a dotted, upper-case-extension candidate inside a
directory: d/foo.bar.PNG crops to d/foo.bar_cropped.png. -/
theorem c6_output_naming_witness :
    ((crop_file ("d/foo.bar.PNG".toList)
        (Except.ok ⟨1920, 1080, fun _ _ => 0⟩)).result ≠ [] →
      (crop_file ("d/foo.bar.PNG".toList)
          (Except.ok ⟨1920, 1080, fun _ _ => 0⟩)).result
        = (splitext ("d/foo.bar.PNG".toList)).1 ++ ("_cropped.png".toList) ∧
      (∃ cropped, (crop_file ("d/foo.bar.PNG".toList)
            (Except.ok ⟨1920, 1080, fun _ _ => 0⟩)).written
        = some ((crop_file ("d/foo.bar.PNG".toList)
            (Except.ok ⟨1920, 1080, fun _ _ => 0⟩)).result, cropped)) ∧
      dirPart ((crop_file ("d/foo.bar.PNG".toList)
          (Except.ok ⟨1920, 1080, fun _ _ => 0⟩)).result)
        = dirPart ("d/foo.bar.PNG".toList) ∧
      basename ((crop_file ("d/foo.bar.PNG".toList)
          (Except.ok ⟨1920, 1080, fun _ _ => 0⟩)).result)
        = (splitextName (basename ("d/foo.bar.PNG".toList))).1
          ++ ("_cropped.png".toList)) ∧
    saveTo (fun _ => none)
      ((splitext ("d/foo.bar.PNG".toList)).1 ++ ("_cropped.png".toList))
      ⟨1, 2, fun _ _ => 3⟩
      ((splitext ("d/foo.bar.PNG".toList)).1 ++ ("_cropped.png".toList))
      = some ⟨1, 2, fun _ _ => 3⟩ :=
  c6_output_naming ("d/foo.bar.PNG".toList)
    (Except.ok ⟨1920, 1080, fun _ _ => 0⟩) (fun _ => none) ⟨1, 2, fun _ _ => 3⟩

/-- C7: idempotence of discovery: every path crop_file writes ends in
_cropped.png, so its basename is not a candidate, and appending any such
outputs to a directory listing leaves the filtered candidate set unchanged. -/
theorem c7_idempotent_discovery (p : Str) (d : Except String PILImage) (out : Str)
    (es extra : List Str)
    (hw : ((crop_file p d).written.map Prod.fst) = some out)
    (hextra : ∀ f ∈ extra, endsWith (lower f) ("_cropped.png".toList) = true) :
    isCandidate (basename out) = false ∧
    (es ++ extra).filter isCandidate = es.filter isCandidate := by
  constructor
  · have hpath := crop_file_written_path p d out hw
    have hbase : basename out
        = basename ((splitext p).1) ++ ("_cropped.png".toList) := by
      rw [hpath]
      exact basename_append_of_noSlash _ _ (by decide)
    apply isCandidate_of_cropped
    rw [hbase, lower_append]
    have hfix : lower ("_cropped.png".toList) = ("_cropped.png".toList) := by decide
    rw [hfix]
    exact endsWith_append_self _ _
  · rw [List.filter_append]
    have hnil : extra.filter isCandidate = [] := by
      rw [List.filter_eq_nil_iff]
      intro a ha
      rw [isCandidate_of_cropped (hextra a ha)]
      simp
    rw [hnil, List.append_nil]

/-- Witness for C7 on a concrete first-run output. -/
theorem c7_idempotent_discovery_witness :
    isCandidate (basename ("a_cropped.png".toList)) = false ∧
    (([("b.png".toList)] ++ [("a_cropped.png".toList)]).filter isCandidate
      = [("b.png".toList)].filter isCandidate) :=
  c7_idempotent_discovery ("a.png".toList)
    (Except.ok ⟨1920, 1080, fun _ _ => 0⟩) ("a_cropped.png".toList)
    [("b.png".toList)] [("a_cropped.png".toList)] rfl (by decide)

/-- C8: crop_file always returns either the empty string or exactly the
derived output path, which ends in _cropped.png; no exception escapes to the
batch loop. -/
theorem c8_result_dichotomy (p : Str) (d : Except String PILImage) :
    (crop_file p d).result = [] ∨
    ((crop_file p d).result = (splitext p).1 ++ ("_cropped.png".toList) ∧
      endsWith ((crop_file p d).result) ("_cropped.png".toList) = true) := by
  rcases crop_file_cases p d with ⟨h1, _⟩ | ⟨h1, _⟩
  · exact Or.inl h1
  · exact Or.inr ⟨h1, by rw [h1]; exact endsWith_append_self _ _⟩

/-- C9: the exclusion of already-cropped files is case-insensitive: a name
ending in _cropped.png in any letter casing is not a candidate. -/
theorem c9_case_insensitive_exclusion (f s : Str)
    (hs : lower s = "_cropped.png".toList) (hend : endsWith f s = true) :
    isCandidate f = false := by
  have h := lower_endsWith hend
  rw [hs] at h
  exact isCandidate_of_cropped h

/-- Witness for C9 on a fully upper-cased name. -/
theorem c9_case_insensitive_exclusion_witness :
    isCandidate ("FOO_CROPPED.PNG".toList) = false :=
  c9_case_insensitive_exclusion ("FOO_CROPPED.PNG".toList)
    ("_CROPPED.PNG".toList) (by decide) (by decide)

/-- C10: the success tally is a loop invariant: processed counts exactly the
files whose crop returned a non-empty path, never exceeds the number of
files, and the final DONE line reports processed over total with
processed ≤ total. -/
theorem c10_summary_invariant (target : Str) (fs : FS) (l : List Str)
    (hdir : fs.isDir = true) (hne : fs.entries.filter isCandidate ≠ []) :
    (batchLoop target fs.decode l).processed
      = l.countP (fun f =>
          decide ((crop_file (joinPath target f)
            (fs.decode (joinPath target f))).result ≠ [])) ∧
    (batchLoop target fs.decode l).processed ≤ l.length ∧
    (runMain target fs).processed ≤ (runMain target fs).total ∧
    LogLine.done (runMain target fs).processed (runMain target fs).total target
      ∈ (runMain target fs).log := by
  refine ⟨batchLoop_processed_eq _ _ _, batchLoop_processed_le _ _ _, ?_, ?_⟩
  · rw [runMain_isDir target fs hdir]
    dsimp only
    rw [if_neg hne]
    dsimp only
    calc (batchLoop target fs.decode
          ((fs.entries.filter isCandidate).mergeSort strLe)).processed
        ≤ ((fs.entries.filter isCandidate).mergeSort strLe).length :=
          batchLoop_processed_le _ _ _
      _ = (fs.entries.filter isCandidate).length := List.length_mergeSort _
  · rw [runMain_isDir target fs hdir]
    dsimp only
    rw [if_neg hne]
    dsimp only
    exact List.mem_append_right _ (List.mem_singleton.mpr rfl)

/-- Witness for C10 on a one-candidate directory whose file fails to decode. -/
theorem c10_summary_invariant_witness :
    (batchLoop ("d".toList)
        (FS.mk true [("a.png".toList)] (fun _ => Except.error "e")).decode
        [("a.png".toList)]).processed
      = [("a.png".toList)].countP (fun f =>
          decide ((crop_file (joinPath ("d".toList) f)
            ((FS.mk true [("a.png".toList)] (fun _ => Except.error "e")).decode
              (joinPath ("d".toList) f))).result ≠ [])) ∧
    (batchLoop ("d".toList)
        (FS.mk true [("a.png".toList)] (fun _ => Except.error "e")).decode
        [("a.png".toList)]).processed ≤ [("a.png".toList)].length ∧
    (runMain ("d".toList)
        (FS.mk true [("a.png".toList)] (fun _ => Except.error "e"))).processed
      ≤ (runMain ("d".toList)
          (FS.mk true [("a.png".toList)] (fun _ => Except.error "e"))).total ∧
    LogLine.done
        (runMain ("d".toList)
          (FS.mk true [("a.png".toList)] (fun _ => Except.error "e"))).processed
        (runMain ("d".toList)
          (FS.mk true [("a.png".toList)] (fun _ => Except.error "e"))).total
        ("d".toList)
      ∈ (runMain ("d".toList)
          (FS.mk true [("a.png".toList)] (fun _ => Except.error "e"))).log :=
  c10_summary_invariant ("d".toList)
    (FS.mk true [("a.png".toList)] (fun _ => Except.error "e"))
    [("a.png".toList)] rfl (by decide)

end BatchCrop
